import Mathlib

/-!
Shallow embedding of the movie recommendation backend (`backend/app.py`).

Strings are modelled as `List Char`, floats as `ℚ` (cosine values as `ℝ`
where square roots are involved).  Pandas row filters preserve order, so
they become `List.filter`; Python's stable `sorted(..., reverse=True)`
becomes `List.insertionSort` with the descending-by-key relation, which is
the same stable descending sort.
-/

namespace MovieRec

/-- Lowercase every character (Python `str.lower`). -/
def lowerStr (s : List Char) : List Char := s.map Char.toLower

/-- Decidable test that the first list is an initial segment of the second. -/
def leadsWith : List Char → List Char → Bool
  | [], _ => true
  | _ :: _, [] => false
  | a :: as, b :: bs => a == b && leadsWith as bs

/-- Decidable test that `needle` occurs contiguously inside the second list
(Python's `in` operator on strings / pandas `str.contains` with a literal
pattern). -/
def hasSubstr (needle : List Char) : List Char → Bool
  | [] => leadsWith needle []
  | c :: t => leadsWith needle (c :: t) || hasSubstr needle t

/-- One row of the cleaned catalog (`movies_df`).  `weighted_score` is the
derived column that `get_popular_movies` writes in place; it is absent
(`none`) until the first call. -/
structure Movie where
  title : List Char
  genres : List Char
  overview : Option (List Char)
  vote_average : ℚ
  popularity : ℚ
  release_date : Option (List Char)
  weighted_score : Option ℚ
deriving DecidableEq, Repr

/-- A record as returned by the query operations (`to_dict('records')` after
the column projection plus the formatting loop).  `year = none` models the
absence of the `year` key in the returned dict. -/
structure ProjMovie where
  title : List Char
  genres : List Char
  vote_average : ℚ
  overview : Option (List Char)
  release_date : Option (List Char)
  popularity : ℚ
  year : Option (List Char)
deriving DecidableEq, Repr

/-- Python `round(x, 1)` (modelled with rounding to the nearest tenth). -/
def roundTo1 (q : ℚ) : ℚ := (round (q * 10) : ℤ) / 10

/-- The year extraction in the formatting loops: `str(release_date)[:4]` when
the field is present and non-empty, else the sentinel `Unknown`. -/
def yearOf : Option (List Char) → List Char
  | none => String.toList "Unknown"
  | some s => if s = [] then String.toList "Unknown" else s.take 4

/-- Projection used by `get_content_recommendations` and `search_movies`:
six copied columns, two rounded, plus the derived `year` key. -/
def projRec (m : Movie) : ProjMovie :=
  { title := m.title
    genres := m.genres
    vote_average := roundTo1 m.vote_average
    overview := m.overview
    release_date := m.release_date
    popularity := roundTo1 m.popularity
    year := some (yearOf m.release_date) }

/-- Projection used by `get_popular_movies`: same six columns and rounding,
but the formatting loop never adds a `year` key. -/
def projPopular (m : Movie) : ProjMovie :=
  { title := m.title
    genres := m.genres
    vote_average := roundTo1 m.vote_average
    overview := m.overview
    release_date := m.release_date
    popularity := roundTo1 m.popularity
    year := none }

/-- `clean_title` column: lowercased title. -/
def cleanTitle (m : Movie) : List Char := lowerStr m.title

/-- `clean_overview` column: `overview.fillna('').str.lower()`. -/
def cleanOverview (m : Movie) : List Char := lowerStr (m.overview.getD [])

/-- `genres.str.replace('|', ' ')`: every separator becomes a space, case is
left untouched. -/
def genresSpaced (g : List Char) : List Char :=
  g.map (fun c => if c = '|' then ' ' else c)

/-- `combined_features` column: `clean_overview + ' ' + genres_spaced + ' '
+ clean_title` (`preprocess_data`). -/
def combinedFeatures (m : Movie) : List Char :=
  cleanOverview m ++ (' ' :: genresSpaced m.genres) ++ (' ' :: cleanTitle m)

/-- The weighted score written by `get_popular_movies`:
`popularity * 0.3 + vote_average * 0.7`. -/
def wscore (m : Movie) : ℚ := m.popularity * (3 / 10) + m.vote_average * (7 / 10)

/-- The in-place column assignment `movies_df['weighted_score'] = …`. -/
def setW (m : Movie) : Movie := { m with weighted_score := some (wscore m) }

/-- Erase the derived column (used to state what `get_popular_movies` leaves
untouched). -/
def clearW (m : Movie) : Movie := { m with weighted_score := none }

/-- Stable descending sort by a rational key: Python's
`sorted(…, key=…, reverse=True)` and pandas `nlargest(…, keep='first')`
both keep the original relative order of equal keys, which is exactly
`insertionSort` with the relation `key b ≤ key a`. -/
def sortD {α : Type} (key : α → ℚ) (l : List α) : List α :=
  l.insertionSort (fun a b => key b ≤ key a)

/-- `sim_scores = sorted(enumerate(cosine_sim[idx]), key=score, reverse=True)`
followed by `[i[0] for i in sim_scores[1:num+1]]`. -/
def topSimilarIdx (sim : List (List ℚ)) (idx num : Nat) : List Nat :=
  ((((sortD Prod.snd ((sim.getD idx []).enum)).drop 1).take num).map Prod.fst)

/-- The immutable part of the recommender state a build produces: the catalog
table and the cosine-similarity matrix (`movies_df`, `cosine_sim`). -/
structure Snapshot where
  catalog : List Movie
  sim : List (List ℚ)
deriving DecidableEq, Repr

/-- A default row, only used to totalise `iloc` on indices that a well formed
similarity matrix never produces. -/
def mvDefault : Movie :=
  { title := [], genres := [], overview := none, vote_average := 0
    popularity := 0, release_date := none, weighted_score := none }

/-- `get_content_recommendations` over an explicit catalog and matrix:
resolve the title by the first case-insensitive substring match
(`movie_matches.index[0]`), sort the similarity row, drop the first entry,
take `num`, project with `year`. -/
def getContentRecsAux (q : List Char) (num : Nat) (cat : List Movie)
    (sim : List (List ℚ)) : List ProjMovie :=
  match cat.findIdx? (fun m => hasSubstr (lowerStr q) (lowerStr m.title)) with
  | none => []
  | some idx =>
      (topSimilarIdx sim idx num).map (fun j => projRec (cat.getD j mvDefault))

/-- `get_content_recommendations` reading the shared recommender state. -/
def getContentRecommendations (q : List Char) (num : Nat) (s : Snapshot) :
    List ProjMovie :=
  getContentRecsAux q num s.catalog s.sim

/-- `get_popular_movies` result: `nlargest(num, 'weighted_score')` on the
freshly written column, projected without `year`. -/
def getPopularMovies (num : Nat) (df : List Movie) : List ProjMovie :=
  ((sortD wscore df).take num).map projPopular

/-- Phase (a) of `search_movies`: `exact_matches = df[title.lower() ==
query.lower()].head(limit // 2)`. -/
def exactPhase (q : List Char) (limit : Nat) (df : List Movie) : List Movie :=
  (df.filter (fun m => lowerStr m.title == lowerStr q)).take (limit / 2)

/-- Phase (b) of `search_movies`: `partial_matches = df[title_mask & (title
!= query)].head(limit - len(exact_matches))`. -/
def subPhase (q : List Char) (limit : Nat) (df : List Movie) : List Movie :=
  (df.filter (fun m => hasSubstr (lowerStr q) (lowerStr m.title) &&
      !(lowerStr m.title == lowerStr q))).take (limit - (exactPhase q limit df).length)

/-- `search_movies`: the two phases concatenated, truncated to `limit`, then
projected with `year`. -/
def searchMovies (q : List Char) (limit : Nat) (df : List Movie) : List ProjMovie :=
  ((exactPhase q limit df ++ subPhase q limit df).take limit).map projRec

/-- The search contract as §4.4 of the spec words it: project the records of
phase (a), capped at `limit // 2`; project those of phase (b), capped at the
remaining budget; concatenate exact matches first and truncate to `limit`. -/
def searchSpec (q : List Char) (limit : Nat) (df : List Movie) : List ProjMovie :=
  (((df.filter (fun m => lowerStr m.title == lowerStr q)).take (limit / 2)).map projRec
    ++ ((df.filter (fun m => hasSubstr (lowerStr q) (lowerStr m.title) &&
          !(lowerStr m.title == lowerStr q))).take
        (limit - ((df.filter (fun m => lowerStr m.title == lowerStr q)).take
          (limit / 2)).length)).map projRec).take limit

/-- `get_popular_movies` as a state transformer: it first writes the
`weighted_score` column into the shared table, then reads it back. -/
def popularStep (num : Nat) (s : Snapshot) : Snapshot × List ProjMovie :=
  let cat := s.catalog.map setW
  (⟨cat, s.sim⟩, ((sortD wscore cat).take num).map projPopular)

/-- `search_movies` as a state transformer: it only reads. -/
def searchStep (q : List Char) (limit : Nat) (s : Snapshot) :
    Snapshot × List ProjMovie :=
  (s, searchMovies q limit s.catalog)

/-- `get_content_recommendations` as a state transformer: it only reads. -/
def similarStep (q : List Char) (num : Nat) (s : Snapshot) :
    Snapshot × List ProjMovie :=
  (s, getContentRecommendations q num s)

/-- Dot product of rational vectors (dimension mismatch truncates, as the
vectorizer always emits equal-length vectors). -/
def dotQ : List ℚ → List ℚ → ℚ
  | x :: xs, y :: ys => x * y + dotQ xs ys
  | _, _ => 0

/-- Cosine similarity as `sklearn.metrics.pairwise.cosine_similarity`
computes it: each vector is normalised, a zero vector is left as the zero
vector, so any similarity involving one is `0`. -/
noncomputable def cosSim (u v : List ℚ) : ℝ :=
  if dotQ u u = 0 ∨ dotQ v v = 0 then 0
  else (dotQ u v : ℝ) / (Real.sqrt (dotQ u u) * Real.sqrt (dotQ v v))

/-- `cosine_sim = cosine_similarity(tfidf_matrix, tfidf_matrix)`. -/
noncomputable def simMatrixOf (vs : List (List ℚ)) : List (List ℝ) :=
  vs.map (fun u => vs.map (fun v => cosSim u v))

/-- Entry access into the similarity matrix. -/
noncomputable def simEntry (vs : List (List ℚ)) (i j : Nat) : ℝ :=
  ((simMatrixOf vs).getD i []).getD j 0

/-- The normalizer contract as the (amended) spec words it: lowercased
overview (empty when missing), the genre string with the separator replaced
by a space, and the lowercased title, joined by single spaces, in that
order. -/
def normalizeSpec (title : List Char) (overview : Option (List Char))
    (genres : List Char) : List Char :=
  lowerStr (overview.getD []) ++ [' '] ++ genresSpaced genres ++ [' '] ++ lowerStr title

/-- Concrete catalog row used in examples: a record with a capitalised genre
string and a populated `weighted_score`-free state. -/
def mUp : Movie :=
  { title := String.toList "Up"
    genres := String.toList "Animation|Family"
    overview := some (String.toList "A house lifted by balloons.")
    vote_average := 8
    popularity := 10
    release_date := some (String.toList "2009-05-29")
    weighted_score := none }

/-- Concrete record with `popularity = 10`, `vote_average = 5`
(weighted score `6.5`). -/
def mPop10 : Movie :=
  { title := String.toList "First"
    genres := String.toList "Drama"
    overview := some (String.toList "One.")
    vote_average := 5
    popularity := 10
    release_date := some (String.toList "2001-01-01")
    weighted_score := none }

/-- Concrete record with `popularity = 5`, `vote_average = 9`
(weighted score `7.8`). -/
def mPop5 : Movie :=
  { title := String.toList "Second"
    genres := String.toList "Comedy"
    overview := some (String.toList "Two.")
    vote_average := 9
    popularity := 5
    release_date := some (String.toList "2002-02-02")
    weighted_score := none }

/-- Concrete one-movie catalog entry titled `a`. -/
def mA : Movie :=
  { title := String.toList "a"
    genres := String.toList "Drama"
    overview := some (String.toList "Solo.")
    vote_average := 7
    popularity := 3
    release_date := none
    weighted_score := none }

/-- A one-movie snapshot: catalog `[mA]`, similarity matrix `[[1]]`. -/
def snapA : Snapshot := ⟨[mA], [[1]]⟩

/-- A one-movie snapshot for the state-mutation examples. -/
def snapUp : Snapshot := ⟨[mUp], [[1]]⟩

/-- Concrete record with a missing overview. -/
def mBare : Movie :=
  { title := String.toList "X"
    genres := String.toList "Drama"
    overview := none
    vote_average := 6
    popularity := 2
    release_date := none
    weighted_score := none }

/-- A two-movie snapshot with a well-formed 2×2 similarity matrix. -/
def snap2 : Snapshot := ⟨[mPop10, mPop5], [[1, 1 / 2], [1 / 2, 1]]⟩

/-! ### Helper lemmas about the stable descending sort -/

/-- The sort permutes its input. -/
theorem sortD_perm {α : Type} (key : α → ℚ) (l : List α) : (sortD key l).Perm l :=
  List.perm_insertionSort _ l

/-- The sort preserves length. -/
theorem sortD_length {α : Type} (key : α → ℚ) (l : List α) :
    (sortD key l).length = l.length :=
  (sortD_perm key l).length_eq

/-- Inserting an element that precedes (under `r`) everything already in a
lexicographically sorted list keeps the list sorted for the relation
"strictly larger key, or equal key and `r`". -/
theorem orderedInsert_pairwise_lex {α : Type} (key : α → ℚ) (r : α → α → Prop)
    (x : α) :
    ∀ L : List α,
      L.Pairwise (fun a b => key b < key a ∨ (key a = key b ∧ r a b)) →
      (∀ y ∈ L, r x y) →
      (L.orderedInsert (fun a b => key b ≤ key a) x).Pairwise
        (fun a b => key b < key a ∨ (key a = key b ∧ r a b))
  | [], _, _ => by simp
  | y :: l, hL, hr => by
    by_cases h : key y ≤ key x
    · simp only [List.orderedInsert, if_pos h]
      refine List.Pairwise.cons ?_ hL
      intro z hz
      rcases List.mem_cons.mp hz with rfl | hz'
      · rcases lt_or_eq_of_le h with h' | h'
        · exact Or.inl h'
        · exact Or.inr ⟨h'.symm, hr z (List.mem_cons_self _ _)⟩
      · have hyz := (List.pairwise_cons.mp hL).1 z hz'
        rcases hyz with h1 | h1
        · exact Or.inl (lt_of_lt_of_le h1 h)
        · rcases lt_or_eq_of_le h with h' | h'
          · exact Or.inl (h1.1 ▸ h')
          · exact Or.inr ⟨by rw [← h', h1.1], hr z (List.mem_cons_of_mem _ hz')⟩
    · have hrec := orderedInsert_pairwise_lex key r x l (List.pairwise_cons.mp hL).2
        (fun z hz => hr z (List.mem_cons_of_mem _ hz))
      simp only [List.orderedInsert, if_neg h]
      refine List.Pairwise.cons ?_ hrec
      intro z hz
      rcases (List.mem_orderedInsert _).mp hz with rfl | hz'
      · exact Or.inl (not_le.mp h)
      · exact (List.pairwise_cons.mp hL).1 z hz'

/-- Stability of the descending sort: if the input list is ordered by `r`
(think: original position), the output is pairwise "strictly larger key, or
equal key and earlier original position". -/
theorem sortD_pairwise_lex {α : Type} (key : α → ℚ) (r : α → α → Prop) :
    ∀ l : List α, l.Pairwise r →
      (sortD key l).Pairwise (fun a b => key b < key a ∨ (key a = key b ∧ r a b))
  | [], _ => by simp [sortD]
  | x :: l, h => by
    have hrec := sortD_pairwise_lex key r l (List.pairwise_cons.mp h).2
    have hall : ∀ y ∈ sortD key l, r x y := by
      intro y hy
      exact (List.pairwise_cons.mp h).1 y ((sortD_perm key l).mem_iff.mp hy)
    simpa [sortD, List.insertionSort] using
      orderedInsert_pairwise_lex key r x (sortD key l) hrec hall

/-- The sorted output is weakly descending in the key. -/
theorem sortD_pairwise_ge {α : Type} (key : α → ℚ) (l : List α) :
    (sortD key l).Pairwise (fun a b => key b ≤ key a) := by
  have h := sortD_pairwise_lex key (fun _ _ => True) l
    (List.pairwise_iff_forall_sublist.mpr (fun _ => trivial))
  exact h.imp (fun hab => by rcases hab with h1 | h1; exacts [le_of_lt h1, le_of_eq h1.1.symm])

/-! ### Helper lemmas about `List.enum` -/

/-- The indices produced by `enum` are strictly increasing along the list. -/
theorem enum_pairwise_fst {α : Type} (l : List α) :
    l.enum.Pairwise (fun a b => a.1 < b.1) := by
  rw [List.pairwise_iff_getElem]
  intro i j hi hj hij
  simpa using hij

/-- Membership in `enum` pins down the index bound and the value. -/
theorem mem_enum_spec {α : Type} (d : α) {l : List α} {p : Nat × α}
    (hp : p ∈ l.enum) : p.1 < l.length ∧ p.2 = l.getD p.1 d := by
  have h := List.mem_enum_iff_getElem?.mp hp
  have h1 : p.1 < l.length := by
    by_contra hcon
    rw [List.getElem?_eq_none (le_of_not_lt hcon)] at h
    exact Option.noConfusion h
  refine ⟨h1, ?_⟩
  rw [List.getD_eq_getElem l d h1]
  rw [List.getElem?_eq_getElem h1] at h
  exact (Option.some_injective _ h).symm

/-- The enumeration contains the pair at every valid index. -/
theorem enum_mem_of_lt {α : Type} (d : α) {l : List α} {i : Nat}
    (hi : i < l.length) : (i, l.getD i d) ∈ l.enum := by
  apply List.mem_enum_iff_getElem?.mpr
  rw [List.getElem?_eq_getElem hi, List.getD_eq_getElem l d hi]

/-! ### C1: self-exclusion of the similar-movies query -/

/-- C1 (amended): `topSimilar(i, 0, K)` never includes the queried index `i`
provided `i` is the first index, in row order, attaining the maximal score of
row `i` — i.e. every score in the row is at most the self score and every
index before `i` scores strictly below it.  (As stated, with arbitrary ties
at the top, the claim is false: the stable sort puts an earlier tied index at
position 0 and the unconditional drop of position 0 then removes that index
instead of `i`.) -/
theorem c1_topSimilar_excludes_self (sim : List (List ℚ)) (i K : Nat)
    (hi : i < (sim.getD i []).length)
    (hmax : ∀ j, j < (sim.getD i []).length →
      (sim.getD i []).getD j 0 ≤ (sim.getD i []).getD i 0)
    (hstrict : ∀ j, j < i →
      (sim.getD i []).getD j 0 < (sim.getD i []).getD i 0) :
    i ∉ topSimilarIdx sim i K := by
  intro hmem
  have hperm : (sortD Prod.snd (sim.getD i []).enum).Perm (sim.getD i []).enum :=
    sortD_perm _ _
  have hlex := sortD_pairwise_lex Prod.snd (fun a b : Nat × ℚ => a.1 < b.1)
    (sim.getD i []).enum (enum_pairwise_fst _)
  rw [topSimilarIdx] at hmem
  cases hs : sortD Prod.snd (sim.getD i []).enum with
  | nil => rw [hs] at hmem; simp at hmem
  | cons hd tl =>
    rw [hs] at hmem hperm hlex
    simp only [List.drop_succ_cons, List.drop_zero] at hmem
    have hmemi : (i, (sim.getD i []).getD i 0) ∈ hd :: tl :=
      hperm.mem_iff.mpr (enum_mem_of_lt 0 hi)
    have hhd : hd = (i, (sim.getD i []).getD i 0) := by
      rcases List.mem_cons.mp hmemi with h | h
      · exact h.symm
      · exfalso
        have hl := (List.pairwise_cons.mp hlex).1 _ h
        have hdmem : hd ∈ (sim.getD i []).enum :=
          hperm.mem_iff.mp (List.mem_cons_self _ _)
        obtain ⟨hdlt, hdval⟩ := mem_enum_spec 0 hdmem
        rcases hl with h1 | h1
        · have h2 := hmax hd.1 hdlt
          rw [← hdval] at h2
          exact absurd h1 (not_lt.mpr h2)
        · have h2 := hstrict hd.1 h1.2
          rw [← hdval, h1.1] at h2
          exact lt_irrefl _ h2
    have hnodupl : ((sim.getD i []).enum.map Prod.fst).Nodup := by
      rw [List.enum_map_fst]
      exact List.nodup_range _
    have hnodups : ((hd :: tl).map Prod.fst).Nodup :=
      (hperm.map Prod.fst).nodup_iff.mpr hnodupl
    have hitl : i ∈ tl.map Prod.fst := by
      rcases List.mem_map.mp hmem with ⟨p, hp, hpe⟩
      exact List.mem_map.mpr ⟨p, List.mem_of_mem_take hp, hpe⟩
    rw [List.map_cons, hhd] at hnodups
    exact (List.nodup_cons.mp hnodups).1 hitl

/-- C1 counterexample: with two identical catalog entries the similarity row
of index 1 ties at the top with index 0; the stable sort leaves the pair
`(0, 1)` at position 0, the unconditional drop removes it, and index 1 — the
queried movie itself — is returned. -/
theorem c1_counterexample : 1 ∈ topSimilarIdx [[1, 1], [1, 1]] 1 1 := by
  have : topSimilarIdx [[1, 1], [1, 1]] 1 1 = [1] := by
    norm_num [topSimilarIdx, sortD, List.insertionSort, List.orderedInsert,
      List.enum, List.enumFrom]
  rw [this]
  exact List.mem_singleton.mpr rfl

/-- C1 witness: the amended theorem applied to a concrete matrix whose row 1
has its strict first maximum at the diagonal. -/
theorem c1_witness : 1 ∉ topSimilarIdx [[1, 1/2], [1/2, 1]] 1 3 := by
  apply c1_topSimilar_excludes_self
  · norm_num
  · intro j hj
    have hj2 : j < 2 := by simpa using hj
    interval_cases j <;>
      norm_num [List.getD_cons_zero, List.getD_cons_succ]
  · intro j hj
    have hj1 : j < 1 := hj
    interval_cases j
    norm_num [List.getD_cons_zero, List.getD_cons_succ]

/-! ### C6: the similarity ranking is score-descending with index tie-break -/

/-- C6: the ranking built by `get_content_recommendations` — the stable
descending sort of `enumerate(cosine_sim[idx])` by score — is a permutation
of the row's (index, score) pairs, is ordered by score descending with ties
broken by ascending original index, and is the unique such list, so repeated
calls on the same snapshot return the identical sequence. -/
theorem c6_ranking_deterministic (sim : List (List ℚ)) (i : Nat) :
    (sortD Prod.snd ((sim.getD i []).enum)).Perm ((sim.getD i []).enum) ∧
    (sortD Prod.snd ((sim.getD i []).enum)).Pairwise
      (fun a b => b.2 < a.2 ∨ (a.2 = b.2 ∧ a.1 < b.1)) ∧
    ∀ t : List (Nat × ℚ), t.Perm ((sim.getD i []).enum) →
      t.Pairwise (fun a b => b.2 < a.2 ∨ (a.2 = b.2 ∧ a.1 < b.1)) →
      t = sortD Prod.snd ((sim.getD i []).enum) := by
  refine ⟨sortD_perm _ _, ?_, ?_⟩
  · exact sortD_pairwise_lex Prod.snd (fun a b : Nat × ℚ => a.1 < b.1) _
      (enum_pairwise_fst _)
  · intro t hperm hsorted
    haveI : IsAntisymm (Nat × ℚ)
        (fun a b => b.2 < a.2 ∨ (a.2 = b.2 ∧ a.1 < b.1)) := by
      constructor
      intro a b hab hba
      exfalso
      rcases hab with h1 | h1 <;> rcases hba with h2 | h2
      · exact lt_asymm h1 h2
      · rw [h2.1] at h1; exact lt_irrefl _ h1
      · rw [h1.1] at h2; exact lt_irrefl _ h2
      · exact Nat.lt_asymm h1.2 h2.2
    exact List.eq_of_perm_of_sorted (hperm.trans (sortD_perm _ _).symm) hsorted
      (sortD_pairwise_lex Prod.snd (fun a b : Nat × ℚ => a.1 < b.1) _
        (enum_pairwise_fst _))

/-- C6 witness: the uniqueness clause applied to a concrete tied row. -/
theorem c6_witness :
    [((0 : Nat), (1 : ℚ)), (1, 1)] = sortD Prod.snd (([[(1 : ℚ), 1]].getD 0 []).enum) := by
  apply (c6_ranking_deterministic [[(1 : ℚ), 1]] 0).2.2
  · have h : ([[(1 : ℚ), 1]].getD 0 []).enum = [((0 : Nat), (1 : ℚ)), (1, 1)] := by
      simp [List.enum, List.enumFrom]
    rw [h]
  · norm_num [List.pairwise_cons]

/-! ### C2: similarity matrix diagonal and symmetry -/

/-- Dot products are commutative. -/
theorem dotQ_comm : ∀ u v : List ℚ, dotQ u v = dotQ v u
  | [], [] => rfl
  | [], _ :: _ => rfl
  | _ :: _, [] => rfl
  | x :: xs, y :: ys => by
    simp only [dotQ, dotQ_comm xs ys, mul_comm]

/-- A self dot product is a sum of squares, hence nonnegative. -/
theorem dotQ_self_nonneg : ∀ u : List ℚ, 0 ≤ dotQ u u
  | [] => le_refl 0
  | x :: xs => by
    simp only [dotQ]
    exact add_nonneg (mul_self_nonneg x) (dotQ_self_nonneg xs)

/-- `getD` on a mapped list at a valid index applies the function to the
original entry. -/
theorem getD_map {α β : Type} (f : α → β) (l : List α) (i : Nat)
    (hi : i < l.length) (d : β) (e : α) : (l.map f).getD i d = f (l.getD i e) := by
  rw [List.getD_eq_getElem _ _ (by simpa using hi), List.getElem_map,
    List.getD_eq_getElem _ _ hi]

/-- Entry access of the built matrix reduces to a cosine of the two rows. -/
theorem simEntry_eq (vs : List (List ℚ)) (i j : Nat)
    (hi : i < vs.length) (hj : j < vs.length) :
    simEntry vs i j = cosSim (vs.getD i []) (vs.getD j []) := by
  unfold simEntry simMatrixOf
  rw [getD_map _ vs i hi [] ([] : List ℚ)]
  rw [getD_map _ vs j hj 0 ([] : List ℚ)]

/-- C2 (amended): the built cosine-similarity matrix is symmetric at every
pair of valid indices, and its diagonal entry is `1.0` exactly at indices
whose feature vector is non-degenerate; for a zero feature vector (a document
of only stop-words) the diagonal entry is `0`, not the sentinel `1.0` the
claim requires. -/
theorem c2_sim_matrix_symm_diag (vs : List (List ℚ)) (i j : Nat)
    (hi : i < vs.length) (hj : j < vs.length) :
    simEntry vs i j = simEntry vs j i ∧
    (dotQ (vs.getD i []) (vs.getD i []) ≠ 0 → simEntry vs i i = 1) ∧
    (dotQ (vs.getD i []) (vs.getD i []) = 0 → simEntry vs i i = 0) := by
  refine ⟨?_, ?_, ?_⟩
  · rw [simEntry_eq vs i j hi hj, simEntry_eq vs j i hj hi]
    unfold cosSim
    rw [dotQ_comm (vs.getD j []) (vs.getD i [])]
    simp only [or_comm, mul_comm]
  · intro h
    rw [simEntry_eq vs i i hi hi]
    unfold cosSim
    rw [if_neg (by push_neg; exact ⟨h, h⟩)]
    have hnn : (0 : ℝ) ≤ (dotQ (vs.getD i []) (vs.getD i []) : ℝ) := by
      exact_mod_cast dotQ_self_nonneg _
    rw [Real.mul_self_sqrt hnn]
    apply div_self
    exact_mod_cast h
  · intro h
    rw [simEntry_eq vs i i hi hi]
    unfold cosSim
    rw [if_pos (Or.inl h)]

/-- C2 counterexample: a catalog whose only document has the zero feature
vector.  The code computes `0` on the diagonal, not the claimed `1.0`. -/
theorem c2_counterexample : simEntry [[(0 : ℚ)]] 0 0 ≠ 1 := by
  have h : simEntry [[(0 : ℚ)]] 0 0 = 0 := by
    simp [simEntry, simMatrixOf, cosSim, dotQ]
  rw [h]
  norm_num

/-- C2 witness: the amended theorem applied to a one-document catalog with a
nonzero vector. -/
theorem c2_witness : simEntry [[(1 : ℚ)]] 0 0 = 1 := by
  apply (c2_sim_matrix_symm_diag [[(1 : ℚ)]] 0 0 (by norm_num) (by norm_num)).2.1
  norm_num [dotQ]

/-! ### C3: the two-phase search contract -/

/-- C3: for every query and limit, the search result is exactly the
spec-side two-phase composition — exact matches capped at `limit / 2`, then
substring-but-not-exact matches capped at the remaining budget — the final
truncation to `limit` is a no-op because the phase caps already bound the
total, and each phase is an order-preserving selection from the catalog. -/
theorem c3_search_matches_spec (q : List Char) (limit : Nat) (df : List Movie) :
    searchMovies q limit df = searchSpec q limit df ∧
    searchMovies q limit df =
      (exactPhase q limit df ++ subPhase q limit df).map projRec ∧
    (searchMovies q limit df).length ≤ limit ∧
    (exactPhase q limit df).Sublist df ∧
    (subPhase q limit df).Sublist df := by
  have ha : (exactPhase q limit df).length ≤ limit / 2 := by
    simp only [exactPhase, List.length_take]
    exact min_le_left _ _
  have hb : (subPhase q limit df).length ≤ limit - (exactPhase q limit df).length := by
    simp only [subPhase, List.length_take]
    exact min_le_left _ _
  have hdiv : limit / 2 ≤ limit := Nat.div_le_self _ _
  have hlen : (exactPhase q limit df ++ subPhase q limit df).length ≤ limit := by
    rw [List.length_append]
    omega
  have hmain : searchMovies q limit df =
      (exactPhase q limit df ++ subPhase q limit df).map projRec := by
    rw [searchMovies, List.take_of_length_le hlen]
  refine ⟨?_, hmain, ?_, ?_, ?_⟩
  · rw [hmain, searchSpec, ← List.map_append]
    have hml : ((exactPhase q limit df ++ subPhase q limit df).map projRec).length ≤ limit := by
      rw [List.length_map]; exact hlen
    show (exactPhase q limit df ++ subPhase q limit df).map projRec =
      ((exactPhase q limit df ++ subPhase q limit df).map projRec).take limit
    rw [List.take_of_length_le hml]
  · rw [hmain, List.length_map]; exact hlen
  · exact (List.take_sublist _ _).trans (List.filter_sublist df)
  · exact (List.take_sublist _ _).trans (List.filter_sublist df)

/-- C3 witness: the search theorem evaluated on a concrete catalog and
query, reproducing the spec's exact-before-partial example shape. -/
theorem c3_witness :
    searchMovies (String.toList "second") 10 [mPop10, mPop5] =
      searchSpec (String.toList "second") 10 [mPop10, mPop5] :=
  (c3_search_matches_spec (String.toList "second") 10 [mPop10, mPop5]).1

/-! ### C10: search with limit 1 returns no exact match -/

/-- C10: with `limit = 1` the exact phase is capped at `1 / 2 = 0`, and the
substring phase explicitly excludes exact matches, so no returned record's
title equals the query case-insensitively; if every substring match is an
exact match, the result is empty even though matches exist. -/
theorem c10_search_limit_one (q : List Char) (df : List Movie) :
    (∀ r ∈ searchMovies q 1 df, lowerStr r.title ≠ lowerStr q) ∧
    ((∀ m ∈ df, hasSubstr (lowerStr q) (lowerStr m.title) = true →
        lowerStr m.title = lowerStr q) →
      searchMovies q 1 df = []) := by
  have hex : exactPhase q 1 df = [] := by
    simp [exactPhase]
  constructor
  · intro r hr
    rw [searchMovies, hex, List.nil_append] at hr
    rcases List.mem_map.mp hr with ⟨m, hm, rfl⟩
    have hm2 : m ∈ df.filter (fun m => hasSubstr (lowerStr q) (lowerStr m.title) &&
        !(lowerStr m.title == lowerStr q)) :=
      List.mem_of_mem_take (List.mem_of_mem_take (by simpa [subPhase] using hm))
    have hpred := List.of_mem_filter hm2
    have hne : (lowerStr m.title == lowerStr q) = false := by
      rcases Bool.and_eq_true_iff.mp hpred with ⟨_, h2⟩
      simpa using h2
    intro hcon
    rw [show (projRec m).title = m.title from rfl] at hcon
    rw [beq_eq_false_iff_ne] at hne
    exact hne hcon
  · intro hall
    have hsub : subPhase q 1 df = [] := by
      rw [subPhase]
      have : df.filter (fun m => hasSubstr (lowerStr q) (lowerStr m.title) &&
          !(lowerStr m.title == lowerStr q)) = [] := by
        rw [List.filter_eq_nil_iff]
        intro m hm
        intro hcon
        rcases Bool.and_eq_true_iff.mp hcon with ⟨h1, h2⟩
        have := hall m hm h1
        rw [Bool.not_eq_true', beq_eq_false_iff_ne] at h2
        exact h2 this
      rw [this, List.take_nil]
    rw [searchMovies, hex, hsub]
    rfl

/-- C10 witness: a catalog whose only title matches the query exactly yields
the empty search result at limit 1. -/
theorem c10_witness : searchMovies (String.toList "up") 1 [mUp] = [] := by
  apply (c10_search_limit_one (String.toList "up") [mUp]).2
  intro m hm hc
  rw [List.mem_singleton] at hm
  subst hm
  decide

/-! ### C4: the popular ranking -/

/-- C4: `popular(count)` returns the first `count` records of a permutation
of the catalog that is weakly descending in `weighted_score = 0.3·popularity
+ 0.7·vote_average`; every record left out scores no higher than any record
returned; the function of the catalog is deterministic by construction; and
on the spec's concrete example — `popularity=10, vote_average=5` against
`popularity=5, vote_average=9` — `popular(1)` returns the second record. -/
theorem c4_popular_ranking (df : List Movie) (n : Nat) :
    (sortD wscore df).Perm df ∧
    (sortD wscore df).Pairwise (fun a b => wscore b ≤ wscore a) ∧
    getPopularMovies n df = ((sortD wscore df).take n).map projPopular ∧
    (∀ a ∈ (sortD wscore df).take n, ∀ b ∈ (sortD wscore df).drop n,
      wscore b ≤ wscore a) ∧
    getPopularMovies 1 [mPop10, mPop5] = [projPopular mPop5] := by
  refine ⟨sortD_perm _ _, sortD_pairwise_ge _ _, rfl, ?_, ?_⟩
  · have hp := sortD_pairwise_ge wscore df
    rw [← List.take_append_drop n (sortD wscore df), List.pairwise_append] at hp
    exact hp.2.2
  · have hws : ¬ (wscore mPop5 ≤ wscore mPop10) := by
      norm_num [wscore, mPop5, mPop10]
    simp [getPopularMovies, sortD, List.insertionSort, List.orderedInsert, hws]

/-- C4 witness: the concrete-example clause extracted from the theorem. -/
theorem c4_witness : getPopularMovies 1 [mPop10, mPop5] = [projPopular mPop5] :=
  (c4_popular_ranking [mPop10, mPop5] 1).2.2.2.2

/-! ### C8: the projected public fields -/

/-- C8 (amended): records returned by `similarTo` and `search` carry the six
projected columns plus a `year` derived from their own `release_date`, but
records returned by `popular` carry no `year` at all — its formatting loop
never adds one. -/
theorem c8_projected_fields (df : List Movie) (n lim K : Nat) (s : Snapshot)
    (q : List Char) :
    (∀ r ∈ getPopularMovies n df, r.year = none) ∧
    (∀ r ∈ searchMovies q lim df, r.year = some (yearOf r.release_date)) ∧
    (∀ r ∈ getContentRecommendations q K s, r.year = some (yearOf r.release_date)) := by
  refine ⟨?_, ?_, ?_⟩
  · intro r hr
    rcases List.mem_map.mp hr with ⟨m, _, rfl⟩
    rfl
  · intro r hr
    rcases List.mem_map.mp hr with ⟨m, _, rfl⟩
    rfl
  · intro r hr
    rw [getContentRecommendations, getContentRecsAux] at hr
    split at hr
    · simp at hr
    · rcases List.mem_map.mp hr with ⟨j, _, rfl⟩
      rfl

/-- C8 counterexample: the one record returned by `popular` on a one-movie
catalog has no `year` field. -/
theorem c8_counterexample :
    (getPopularMovies 1 [mUp]).map ProjMovie.year = [none] := rfl

/-- C8 witness: the search clause of the theorem applied to a concrete
catalog and query. -/
theorem c8_witness : (projRec mUp).year = some (yearOf (projRec mUp).release_date) := by
  have h : searchMovies (String.toList "up") 10 [mUp] = [projRec mUp] := rfl
  exact (c8_projected_fields [mUp] 0 10 0 snapA (String.toList "up")).2.1 (projRec mUp)
    (by rw [h]; exact List.mem_singleton.mpr rfl)

/-! ### C9: the combined feature string -/

/-- C9 (amended): the normalizer output is the concatenation, in the fixed
order overview–genres–title separated by single spaces, of the lowercased
overview, the genre string with its separator replaced by a space (case
preserved — not lowercased), and the lowercased title; a missing overview
contributes the empty string.  The claim's "fully lowercase" is refuted
separately. -/
theorem c9_normalizer (m : Movie) :
    combinedFeatures m = normalizeSpec m.title m.overview m.genres ∧
    (m.overview = none →
      combinedFeatures m = [' '] ++ genresSpaced m.genres ++ [' '] ++ lowerStr m.title) := by
  constructor
  · simp [combinedFeatures, normalizeSpec, cleanOverview, cleanTitle]
  · intro h
    simp [combinedFeatures, cleanOverview, cleanTitle, h, lowerStr]

/-- C9 counterexample: with the capitalised genre string of `mUp`, the
combined feature string is not fully lowercase — lowercasing it again
changes it. -/
theorem c9_counterexample :
    combinedFeatures mUp ≠ lowerStr (combinedFeatures mUp) := by decide

/-- C9 witness: the missing-overview clause applied to a concrete record. -/
theorem c9_witness :
    combinedFeatures mBare = [' '] ++ genresSpaced mBare.genres ++ [' '] ++ lowerStr mBare.title :=
  (c9_normalizer mBare).2 rfl

/-! ### C5: what the query operations do to the shared state -/

/-- Writing the derived column changes no title and no projected field, so
`search_movies` returns the same records on the written catalog. -/
theorem searchMovies_setW (q : List Char) (lim : Nat) (c : List Movie) :
    searchMovies q lim (c.map setW) = searchMovies q lim c := by
  have hex : exactPhase q lim (c.map setW) = (exactPhase q lim c).map setW := by
    rw [exactPhase, exactPhase, List.filter_map, ← List.map_take]
    rfl
  have hsub : subPhase q lim (c.map setW) = (subPhase q lim c).map setW := by
    rw [subPhase, subPhase, List.filter_map, hex, List.length_map, ← List.map_take]
    rfl
  rw [searchMovies, searchMovies, hex, hsub, ← List.map_append, ← List.map_take,
    List.map_map]
  rfl

/-- Writing the derived column also leaves `get_content_recommendations`
results unchanged: resolution reads titles, projection ignores the column. -/
theorem getContentRecsAux_setW (q : List Char) (K : Nat) (c : List Movie)
    (sim : List (List ℚ)) :
    getContentRecsAux q K (c.map setW) sim = getContentRecsAux q K c sim := by
  have hidx : (c.map setW).findIdx? (fun m => hasSubstr (lowerStr q) (lowerStr m.title)) =
      c.findIdx? (fun m => hasSubstr (lowerStr q) (lowerStr m.title)) := by
    rw [List.findIdx?_map]
    rfl
  unfold getContentRecsAux
  rw [hidx]
  cases hfi : c.findIdx? (fun m => hasSubstr (lowerStr q) (lowerStr m.title)) with
  | none => rfl
  | some idx =>
    apply List.map_congr_left
    intro j _
    by_cases hj : j < c.length
    · rw [getD_map setW c j hj mvDefault mvDefault]
      rfl
    · rw [List.getD_eq_default _ _ (by simpa using not_lt.mp hj),
        List.getD_eq_default _ _ (not_lt.mp hj)]

/-- C5 (amended): `search` and `similarTo` leave the snapshot untouched, but
`popular` rewrites the catalog's derived `weighted_score` column in place.
The write touches nothing but that column, is idempotent, and changes the
result of none of the three query operations. -/
theorem c5_query_mutation (s : Snapshot) (n n2 lim K : Nat) (q : List Char) :
    (searchStep q lim s).1 = s ∧
    (similarStep q K s).1 = s ∧
    (popularStep n s).1.sim = s.sim ∧
    (popularStep n s).1.catalog.map clearW = s.catalog.map clearW ∧
    (popularStep n2 (popularStep n s).1).1 = (popularStep n2 s).1 ∧
    (searchStep q lim (popularStep n s).1).2 = (searchStep q lim s).2 ∧
    (similarStep q K (popularStep n s).1).2 = (similarStep q K s).2 ∧
    (popularStep n2 (popularStep n s).1).2 = (popularStep n2 s).2 := by
  refine ⟨rfl, rfl, rfl, ?_, ?_, ?_, ?_, ?_⟩
  · show (s.catalog.map setW).map clearW = s.catalog.map clearW
    rw [List.map_map]
    rfl
  · show Snapshot.mk ((s.catalog.map setW).map setW) s.sim =
      Snapshot.mk (s.catalog.map setW) s.sim
    rw [List.map_map, show setW ∘ setW = setW from funext fun m => rfl]
  · exact searchMovies_setW q lim s.catalog
  · exact getContentRecsAux_setW q K s.catalog s.sim
  · show ((sortD wscore ((s.catalog.map setW).map setW)).take n2).map projPopular =
      ((sortD wscore (s.catalog.map setW)).take n2).map projPopular
    rw [List.map_map, show setW ∘ setW = setW from funext fun m => rfl]

/-- C5 counterexample: on a fresh snapshot whose catalog has no
`weighted_score` column yet, one `popular` call produces a different state —
the claim that no query operation mutates the snapshot is false. -/
theorem c5_counterexample : (popularStep 1 snapUp).1 ≠ snapUp := by
  intro h
  have h2 : setW mUp = mUp := by
    have h1 := congrArg (fun t : Snapshot => t.catalog) h
    simpa [popularStep, snapUp] using h1
  have h3 := congrArg Movie.weighted_score h2
  simp [setW, mUp] at h3

/-! ### C7: title resolution and the NotFound condition -/

/-- C7 (amended): `similarTo` resolves the query to the first record in
catalog order whose title case-insensitively contains it; when no title
contains the query it returns the empty (NotFound) result.  The converse of
the claim's "exactly when" fails: the result can also be empty when a match
exists, so non-emptiness additionally needs at least one requested
recommendation and at least two catalog entries (with a well-formed
similarity row). -/
theorem c7_resolution_notfound (s : Snapshot) (q : List Char) (K : Nat) :
    ((∀ m ∈ s.catalog, hasSubstr (lowerStr q) (lowerStr m.title) = false) →
      getContentRecommendations q K s = []) ∧
    (∀ idx, s.catalog.findIdx?
        (fun m => hasSubstr (lowerStr q) (lowerStr m.title)) = some idx →
      idx < s.catalog.length ∧
      hasSubstr (lowerStr q) (lowerStr (s.catalog.getD idx mvDefault).title) = true ∧
      (∀ j, j < idx →
        hasSubstr (lowerStr q) (lowerStr (s.catalog.getD j mvDefault).title) = false)) ∧
    (∀ idx, s.catalog.findIdx?
        (fun m => hasSubstr (lowerStr q) (lowerStr m.title)) = some idx →
      (s.sim.getD idx []).length = s.catalog.length → 2 ≤ s.catalog.length →
      1 ≤ K → getContentRecommendations q K s ≠ []) := by
  refine ⟨?_, ?_, ?_⟩
  · intro hall
    unfold getContentRecommendations getContentRecsAux
    rw [List.findIdx?_eq_none_iff.mpr hall]
  · intro idx hidx
    obtain ⟨hlt, hfind⟩ := List.findIdx?_eq_some_iff_findIdx_eq.mp hidx
    subst hfind
    refine ⟨hlt, ?_, ?_⟩
    · rw [List.getD_eq_getElem _ _ hlt]
      simpa using @List.findIdx_getElem _ _ _ hlt
    · intro j hj
      have hjlen : j < s.catalog.length := hj.trans hlt
      rw [List.getD_eq_getElem _ _ hjlen]
      simpa using List.not_of_lt_findIdx hj
  · intro idx hidx hrow hN hK
    unfold getContentRecommendations getContentRecsAux
    rw [hidx]
    show ((topSimilarIdx s.sim idx K).map
      (fun j => projRec (s.catalog.getD j mvDefault))) ≠ []
    apply List.ne_nil_of_length_pos
    rw [List.length_map, topSimilarIdx, List.length_map, List.length_take,
      List.length_drop, sortD_length, List.enum_length, hrow]
    omega

/-- C7 counterexample: a one-movie catalog whose single title contains the
query.  The lookup succeeds, yet the returned recommendation list is empty —
the same empty result the HTTP layer turns into NotFound — so "fails exactly
when no title contains the query" is false. -/
theorem c7_counterexample :
    getContentRecommendations (String.toList "a") 5 snapA = [] ∧
    hasSubstr (lowerStr (String.toList "a")) (lowerStr mA.title) = true := by
  exact ⟨rfl, by decide⟩

/-- C7 witness: the non-emptiness clause on a two-movie snapshot. -/
theorem c7_witness : getContentRecommendations (String.toList "first") 1 snap2 ≠ [] := by
  apply (c7_resolution_notfound snap2 (String.toList "first") 1).2.2 0
  · rfl
  · rfl
  · decide
  · decide

end MovieRec
